import Mathlib

/-!
Verification of the hand-tracker core (hand_tracker.py): calibration store,
exponential smoother, geometric feature extraction and the per-frame loop.

The numeric code operates on Python floats; we embed the arithmetic exactly:
the calibration store and smoother are stated over an arbitrary linear
ordered field `K` (instantiated at `ℚ` for executable witnesses and at `ℝ`
in the frame loop), and the keypoint geometry over `ℝ` since it uses square
roots. Python's `int(...)` conversion truncates toward zero and is embedded
as `truncK`.
-/

namespace HandTracker

/-- Python's `int(x)` on a float: truncation toward zero. -/
def truncK {K : Type} [LinearOrderedField K] [FloorRing K] (q : K) : ℤ :=
  if q < 0 then ⌈q⌉ else ⌊q⌋

/-- The six control channels, the keys of `finger_ranges` in
`HandCalibration.__init__`. -/
inductive Channel : Type
  | pinky
  | ring
  | middle
  | index
  | thumb_bend
  | thumb_rotation
  deriving DecidableEq

/-- The string key used for a channel in the `finger_ranges` dict. -/
def nameOf : Channel → String
  | .pinky => "pinky"
  | .ring => "ring"
  | .middle => "middle"
  | .index => "index"
  | .thumb_bend => "thumb_bend"
  | .thumb_rotation => "thumb_rotation"

/-- Dictionary-key lookup: which channel (if any) a string names.
Models `finger_name in self.finger_ranges`. -/
def channelOfName (s : String) : Option Channel :=
  if s = "pinky" then some .pinky
  else if s = "ring" then some .ring
  else if s = "middle" then some .middle
  else if s = "index" then some .index
  else if s = "thumb_bend" then some .thumb_bend
  else if s = "thumb_rotation" then some .thumb_rotation
  else none

/-- The hardcoded default ranges of `HandCalibration.__init__` and
`reset_defaults`: pinky/ring/middle/index `[0.5, 2.2]`,
thumb_bend `[0.3, 1.5]`, thumb_rotation `[0.15, 0.85]`. -/
def defaultRanges (K : Type) [LinearOrderedField K] : Channel → K × K
  | .pinky => (1/2, 11/5)
  | .ring => (1/2, 11/5)
  | .middle => (1/2, 11/5)
  | .index => (1/2, 11/5)
  | .thumb_bend => (3/10, 3/2)
  | .thumb_rotation => (3/20, 17/20)

/-- `HandCalibration`: the per-channel `[min, max]` range store
(`self.finger_ranges`). -/
structure HandCalibration (K : Type) where
  finger_ranges : Channel → K × K

/-- `HandCalibration.update_min`: overwrite the min bound of a named
channel; no-op when the name is not a key of the store. -/
def HandCalibration.update_min {K : Type} [LinearOrderedField K]
    (c : HandCalibration K) (finger_name : String) (value : K) :
    HandCalibration K :=
  match channelOfName finger_name with
  | none => c
  | some ch =>
      ⟨fun ch2 => if ch2 = ch then (value, (c.finger_ranges ch).2)
                  else c.finger_ranges ch2⟩

/-- `HandCalibration.update_max`: overwrite the max bound of a named
channel; no-op when the name is not a key of the store. -/
def HandCalibration.update_max {K : Type} [LinearOrderedField K]
    (c : HandCalibration K) (finger_name : String) (value : K) :
    HandCalibration K :=
  match channelOfName finger_name with
  | none => c
  | some ch =>
      ⟨fun ch2 => if ch2 = ch then ((c.finger_ranges ch).1, value)
                  else c.finger_ranges ch2⟩

/-- `HandCalibration.normalize`: maps a raw reading into `[0, 1000]`.
Unknown channel: `500`. Degenerate range (`|max - min| < 0.001`): `500`.
Otherwise `t = (raw - min) / (max - min)` clamped to `[0, 1]`, returned
as `int(t * 1000)` (Python `int`, i.e. truncation). -/
def HandCalibration.normalize {K : Type} [LinearOrderedField K] [FloorRing K]
    (c : HandCalibration K) (finger_name : String) (raw_value : K) : ℤ :=
  match channelOfName finger_name with
  | none => 500
  | some ch =>
      let min_val := (c.finger_ranges ch).1
      let max_val := (c.finger_ranges ch).2
      if |max_val - min_val| < 1/1000 then 500
      else
        truncK (max 0 (min 1 ((raw_value - min_val) / (max_val - min_val))) * 1000)

/-- `HandCalibration.reset_defaults`: restore the built-in ranges. -/
def HandCalibration.reset_defaults {K : Type} [LinearOrderedField K]
    (_ : HandCalibration K) : HandCalibration K :=
  ⟨defaultRanges K⟩

/-- `AngleSmoother`: blend factor `alpha`, per-channel running values
`smoothed` (a 6-vector, started at `[500] * 6`), and the `initialized`
flag (field `inited` here). -/
structure AngleSmoother (K : Type) where
  alpha : K
  smoothed : Fin 6 → K
  inited : Bool

/-- `AngleSmoother.__init__`: running values all `500`, not initialized. -/
def mkSmoother {K : Type} [LinearOrderedField K] (alpha : K) :
    AngleSmoother K :=
  ⟨alpha, fun _ => 500, false⟩

/-- `AngleSmoother.smooth`: first call after construction or reset copies
the input into the state and marks initialized; later calls blend
`state = alpha * input + (1 - alpha) * state`. Either way the returned
vector is `[int(a) for a in self.smoothed]`. Returns the output vector
paired with the updated smoother. -/
def AngleSmoother.smooth {K : Type} [LinearOrderedField K] [FloorRing K]
    (s : AngleSmoother K) (angles : Fin 6 → K) :
    (Fin 6 → ℤ) × AngleSmoother K :=
  if s.inited = false then
    let s2 : AngleSmoother K := { s with smoothed := angles, inited := true }
    (fun i => truncK (s2.smoothed i), s2)
  else
    let s2 : AngleSmoother K :=
      { s with smoothed := fun i => s.alpha * angles i + (1 - s.alpha) * s.smoothed i }
    (fun i => truncK (s2.smoothed i), s2)

/-- `AngleSmoother.reset`: clear the initialized flag only. -/
def AngleSmoother.reset {K : Type} (s : AngleSmoother K) : AngleSmoother K :=
  { s with inited := false }

/-- A MediaPipe landmark: an (x, y, z) keypoint. -/
structure Point where
  x : ℝ
  y : ℝ
  z : ℝ

/-- A detected skeleton: exactly 21 keypoints, indexed anatomically. -/
def Landmarks : Type := Fin 21 → Point

/-- `get_landmark_array(landmarks, idx)`. -/
def get_landmark_array (lm : Landmarks) (idx : Fin 21) : Point := lm idx

/-- 3D Euclidean distance, `np.linalg.norm(p - q)` on 3-vectors. -/
noncomputable def dist3 (p q : Point) : ℝ :=
  Real.sqrt ((p.x - q.x)^2 + (p.y - q.y)^2 + (p.z - q.z)^2)

/-- 2D Euclidean distance on the (x, y) components only. -/
noncomputable def dist2 (p q : Point) : ℝ :=
  Real.sqrt ((p.x - q.x)^2 + (p.y - q.y)^2)

/-- `calculate_finger_raw_value`: `dist(tip, wrist) / dist(mcp, wrist)`,
with fallback `1.0` when `dist(mcp, wrist) < 0.001`. The `pip_idx` and
`dip_idx` parameters are accepted but never read. -/
noncomputable def calculate_finger_raw_value (lm : Landmarks)
    (mcp_idx pip_idx dip_idx tip_idx wrist_idx : Fin 21) : ℝ :=
  let wrist := get_landmark_array lm wrist_idx
  let mcp := get_landmark_array lm mcp_idx
  let tip := get_landmark_array lm tip_idx
  let tip_to_wrist := dist3 tip wrist
  let mcp_to_wrist := dist3 mcp wrist
  if mcp_to_wrist < 1/1000 then 1
  else tip_to_wrist / mcp_to_wrist

/-- Componentwise mean of three points, `(a + b + c) / 3`. -/
noncomputable def mean3 (a b c : Point) : Point :=
  ⟨(a.x + b.x + c.x) / 3, (a.y + b.y + c.y) / 3, (a.z + b.z + c.z) / 3⟩

/-- `calculate_thumb_bend_raw`: distance from thumb tip to the palm center
(mean of index MCP, middle MCP, wrist) divided by the hand size
`dist(middle MCP, wrist)`, with fallback `1.0` when the hand size is
`< 0.001`. -/
noncomputable def calculate_thumb_bend_raw (lm : Landmarks) : ℝ :=
  let thumb_tip := get_landmark_array lm 4
  let index_mcp := get_landmark_array lm 5
  let middle_mcp := get_landmark_array lm 9
  let wrist := get_landmark_array lm 0
  let palm_center := mean3 index_mcp middle_mcp wrist
  let thumb_to_palm := dist3 thumb_tip palm_center
  let hand_size := dist3 middle_mcp wrist
  if hand_size < 1/1000 then 1
  else thumb_to_palm / hand_size

/-- `calculate_thumb_rotation_raw`: 2D distance from thumb tip to index MCP
divided by the 2D palm width `dist2(index MCP, pinky MCP)`, with fallback
`0.5` when the palm width is `< 0.001`. -/
noncomputable def calculate_thumb_rotation_raw (lm : Landmarks) : ℝ :=
  let thumb_tip := get_landmark_array lm 4
  let index_mcp := get_landmark_array lm 5
  let pinky_mcp := get_landmark_array lm 17
  let thumb_to_index_2d := dist2 thumb_tip index_mcp
  let palm_width := dist2 index_mcp pinky_mcp
  if palm_width < 1/1000 then 1/2
  else thumb_to_index_2d / palm_width

/-- The channel order of `finger_names` and of the `raw_angles` vector:
`[pinky, ring, middle, index, thumb_bend, thumb_rotation]`. -/
def channelOfIdx : Fin 6 → Channel :=
  ![.pinky, .ring, .middle, .index, .thumb_bend, .thumb_rotation]

/-- The name string used at position `i` of the six-vector pipeline. -/
def nameOfIdx (i : Fin 6) : String := nameOf (channelOfIdx i)

/-- The six raw readings computed in `main` when a hand is detected, in
pipeline order (finger MCP/PIP/DIP/TIP indices from the calls in `main`;
wrist index 0). -/
noncomputable def rawValues (lm : Landmarks) : Fin 6 → ℝ :=
  ![calculate_finger_raw_value lm 17 18 19 20 0,
    calculate_finger_raw_value lm 13 14 15 16 0,
    calculate_finger_raw_value lm 9 10 11 12 0,
    calculate_finger_raw_value lm 5 6 7 8 0,
    calculate_thumb_bend_raw lm,
    calculate_thumb_rotation_raw lm]

/-- The UDP payload assembled each frame. -/
structure Packet where
  detected : Bool
  angles : Fin 6 → ℤ
  landmarks : List Point

/-- The packet sent when no skeleton is detected: the `data` dict of `main`
before any hand-branch overwrites. -/
def noHandPacket : Packet :=
  ⟨false, ![1000, 1000, 1000, 1000, 1000, 500], []⟩

/-- The mutable state of the `main` loop that the pipeline touches:
the calibration store, the smoother, and the retained
`current_raw_values` (empty until a hand has been seen). -/
structure LoopState where
  calibration : HandCalibration ℝ
  smoother : AngleSmoother ℝ
  current_raw_values : Option (Fin 6 → ℝ)

/-- One frame of `main`: with no skeleton, emit `noHandPacket` and leave
the state alone; with a skeleton, extract raw values, normalize each,
smooth, and emit the detected packet with all 21 landmarks. -/
noncomputable def processFrame (st : LoopState) (skel : Option Landmarks) :
    Packet × LoopState :=
  match skel with
  | none => (noHandPacket, st)
  | some lm =>
      let raw := rawValues lm
      let norm : Fin 6 → ℤ :=
        fun i => st.calibration.normalize (nameOfIdx i) (raw i)
      let res := st.smoother.smooth (fun i => ((norm i : ℤ) : ℝ))
      (⟨true, res.1, (List.finRange 21).map lm⟩,
       { st with smoother := res.2, current_raw_values := some raw })

/-- The capture-open loop body: `update_max` on every channel name using
the retained raw values. -/
def captureMax {K : Type} [LinearOrderedField K]
    (c : HandCalibration K) (raw : Fin 6 → K) : HandCalibration K :=
  (List.finRange 6).foldl (fun acc i => acc.update_max (nameOfIdx i) (raw i)) c

/-- The capture-closed loop body: `update_min` on every channel name using
the retained raw values. -/
def captureMin {K : Type} [LinearOrderedField K]
    (c : HandCalibration K) (raw : Fin 6 → K) : HandCalibration K :=
  (List.finRange 6).foldl (fun acc i => acc.update_min (nameOfIdx i) (raw i)) c

/-- The discrete inputs the loop reacts to: a captured frame (with or
without a skeleton) or one of the five button/key actions. -/
inductive UIEvent : Type
  | frame (skel : Option Landmarks)
  | calibOpen
  | calibClosed
  | saveCal
  | resetCal
  | toggleMirror

/-- One loop event: frames emit a packet; the calibrate-open and
calibrate-closed buttons capture the retained raw values (no-op without
them) and reset the smoother; reset-defaults restores the built-in ranges
and resets the smoother; save and mirror do not change pipeline state. -/
noncomputable def step (st : LoopState) : UIEvent → Option Packet × LoopState
  | .frame skel =>
      let res := processFrame st skel
      (some res.1, res.2)
  | .calibOpen =>
      (none,
        match st.current_raw_values with
        | none => st
        | some raw =>
            { st with calibration := captureMax st.calibration raw,
                      smoother := st.smoother.reset })
  | .calibClosed =>
      (none,
        match st.current_raw_values with
        | none => st
        | some raw =>
            { st with calibration := captureMin st.calibration raw,
                      smoother := st.smoother.reset })
  | .saveCal => (none, st)
  | .resetCal =>
      (none, { st with calibration := st.calibration.reset_defaults,
                       smoother := st.smoother.reset })
  | .toggleMirror => (none, st)

/-- Run a sequence of loop events, collecting every emitted packet. -/
noncomputable def runTrace : LoopState → List UIEvent → List Packet × LoopState
  | st, [] => ([], st)
  | st, e :: rest =>
      let res := step st e
      let res2 := runTrace res.2 rest
      (res.1.toList ++ res2.1, res2.2)

/-- The loop state at startup: calibration ranges as loaded (defaults when
no file exists — we allow an arbitrary loaded store `cal`), the smoother
constructed with `alpha = 0.35`, and no retained raw values. -/
noncomputable def initState (cal : HandCalibration ℝ) : LoopState :=
  ⟨cal, mkSmoother (35/100), none⟩

/-- Modelled from the spec's words, for the refinement check of claim C5
only: a normalize that returns round-to-nearest of the scaled clamped
value, where the source uses Python int truncation. -/
def normalizeRoundSpec {K : Type} [LinearOrderedField K] [FloorRing K]
    (c : HandCalibration K) (finger_name : String) (raw_value : K) : ℤ :=
  match channelOfName finger_name with
  | none => 500
  | some ch =>
      let min_val := (c.finger_ranges ch).1
      let max_val := (c.finger_ranges ch).2
      if |max_val - min_val| < 1/1000 then 500
      else
        round (max 0 (min 1 ((raw_value - min_val) / (max_val - min_val))) * 1000)

theorem channelOfName_nameOf (ch : Channel) : channelOfName (nameOf ch) = some ch := by
  cases ch <;> rfl

theorem truncK_eq_floor {K : Type} [LinearOrderedField K] [FloorRing K]
    {q : K} (h : 0 ≤ q) : truncK q = ⌊q⌋ := by
  rw [truncK, if_neg (not_lt.mpr h)]

theorem truncK_intCast {K : Type} [LinearOrderedField K] [FloorRing K]
    (n : ℤ) : truncK ((n : K)) = n := by
  rw [truncK]
  split <;> simp

theorem clamp01_nonneg {K : Type} [LinearOrderedField K] (t : K) :
    0 ≤ max 0 (min 1 t) := le_max_left 0 _

theorem clamp01_le_one {K : Type} [LinearOrderedField K] (t : K) :
    max 0 (min 1 t) ≤ 1 := max_le zero_le_one (min_le_left 1 t)

/-- Shared bound: `normalize` lands in `[0, 1000]` for every name, every
store and every raw value (including unknown names and degenerate ranges). -/
theorem normalize_mem {K : Type} [LinearOrderedField K] [FloorRing K]
    (c : HandCalibration K) (name : String) (r : K) :
    0 ≤ c.normalize name r ∧ c.normalize name r ≤ 1000 := by
  rw [HandCalibration.normalize]
  cases h : channelOfName name with
  | none => norm_num
  | some ch =>
      simp only []
      split
      · norm_num
      · set t := max 0 (min 1 ((r - (c.finger_ranges ch).1) /
          ((c.finger_ranges ch).2 - (c.finger_ranges ch).1))) with ht
        have h0 : (0 : K) ≤ t * 1000 := by
          have := clamp01_nonneg (K := K)
            ((r - (c.finger_ranges ch).1) /
              ((c.finger_ranges ch).2 - (c.finger_ranges ch).1))
          nlinarith
        have h1 : t * 1000 ≤ 1000 := by
          have := clamp01_le_one (K := K)
            ((r - (c.finger_ranges ch).1) /
              ((c.finger_ranges ch).2 - (c.finger_ranges ch).1))
          nlinarith
        rw [truncK_eq_floor h0]
        constructor
        · exact Int.le_floor.mpr (by exact_mod_cast h0)
        · have hle : ((⌊t * 1000⌋ : K)) ≤ (1000 : K) :=
            le_trans (Int.floor_le _) h1
          exact_mod_cast hle

/-- C1: for every channel of the six-channel store and every range with
`|max - min| >= 0.001` (inverted ranges included), `normalize` returns an
integer in `[0, 1000]` for every raw value; and when `max > min`,
`normalize` maps `min` to `0` and `max` to `1000`. -/
theorem c1_normalize_range {K : Type} [LinearOrderedField K] [FloorRing K]
    (c : HandCalibration K) (ch : Channel)
    (hsep : 1/1000 ≤ |(c.finger_ranges ch).2 - (c.finger_ranges ch).1|) :
    (∀ r : K, 0 ≤ c.normalize (nameOf ch) r ∧ c.normalize (nameOf ch) r ≤ 1000) ∧
    ((c.finger_ranges ch).1 < (c.finger_ranges ch).2 →
      c.normalize (nameOf ch) ((c.finger_ranges ch).1) = 0 ∧
      c.normalize (nameOf ch) ((c.finger_ranges ch).2) = 1000) := by
  have hng : ¬ |(c.finger_ranges ch).2 - (c.finger_ranges ch).1| < 1/1000 :=
    not_lt.mpr hsep
  refine ⟨fun r => normalize_mem c (nameOf ch) r, fun hlt => ?_⟩
  have hne : (c.finger_ranges ch).2 - (c.finger_ranges ch).1 ≠ 0 :=
    sub_ne_zero.mpr (ne_of_gt hlt)
  constructor
  · rw [HandCalibration.normalize, channelOfName_nameOf ch]
    simp only [if_neg hng, sub_self, zero_div]
    norm_num [truncK]
  · rw [HandCalibration.normalize, channelOfName_nameOf ch]
    simp only [if_neg hng, div_self hne]
    norm_num [truncK_eq_floor]

/-- Witness for C1 at the default pinky range over `ℚ`. -/
theorem c1_normalize_range_witness :
    (1/1000 : ℚ) ≤
      |((⟨defaultRanges ℚ⟩ : HandCalibration ℚ).finger_ranges .pinky).2 -
        ((⟨defaultRanges ℚ⟩ : HandCalibration ℚ).finger_ranges .pinky).1| ∧
    (0 ≤ (⟨defaultRanges ℚ⟩ : HandCalibration ℚ).normalize "pinky" 3 ∧
      (⟨defaultRanges ℚ⟩ : HandCalibration ℚ).normalize "pinky" 3 ≤ 1000) :=
  ⟨by norm_num [defaultRanges, le_abs],
   (c1_normalize_range (⟨defaultRanges ℚ⟩ : HandCalibration ℚ) .pinky
      (by norm_num [defaultRanges, le_abs])).1 3⟩

/-- C5 counterexample: with the pinky range set to `[0, 0.5]` and raw
value `7/8192`, the scaled clamped value is `1.708984375` (exact also in
binary floating point); the code's `int(...)` gives `1` while the claimed
round-to-nearest gives `2`. -/
theorem c5_counterexample :
    HandCalibration.normalize
        (((⟨defaultRanges ℚ⟩ : HandCalibration ℚ).update_min "pinky" 0).update_max
          "pinky" (1/2)) "pinky" (7/8192) ≠
      normalizeRoundSpec
        (((⟨defaultRanges ℚ⟩ : HandCalibration ℚ).update_min "pinky" 0).update_max
          "pinky" (1/2)) "pinky" (7/8192) := by
  have hmin : channelOfName "pinky" = some Channel.pinky := rfl
  rw [HandCalibration.normalize, normalizeRoundSpec, hmin]
  simp only [HandCalibration.update_min, HandCalibration.update_max, hmin]
  norm_num [truncK]
  rw [round_eq]
  norm_num
  rw [abs_of_pos (by norm_num : (0:ℚ) < 1/2), if_neg (by norm_num),
    if_neg (by norm_num)]
  norm_num

/-- C5 (amended): for a known channel with `|max - min| >= 0.001`,
`normalize` computes `t = (r - min) / (max - min)`, clamps it to `[0, 1]`,
and returns `int(t * 1000)` — Python truncation toward zero, which equals
the floor of the (nonnegative) scaled value, not round-to-nearest. -/
theorem c5_clamp_and_truncate {K : Type} [LinearOrderedField K] [FloorRing K]
    (c : HandCalibration K) (ch : Channel) (r : K)
    (hsep : 1/1000 ≤ |(c.finger_ranges ch).2 - (c.finger_ranges ch).1|) :
    c.normalize (nameOf ch) r =
      ⌊max 0 (min 1 ((r - (c.finger_ranges ch).1) /
        ((c.finger_ranges ch).2 - (c.finger_ranges ch).1))) * 1000⌋ := by
  rw [HandCalibration.normalize, channelOfName_nameOf ch]
  simp only [if_neg (not_lt.mpr hsep)]
  exact truncK_eq_floor (mul_nonneg (clamp01_nonneg _) (by norm_num))

/-- Witness for the amended C5 over `ℚ` at the default pinky range. -/
theorem c5_clamp_and_truncate_witness :
    (1/1000 : ℚ) ≤
      |((⟨defaultRanges ℚ⟩ : HandCalibration ℚ).finger_ranges .pinky).2 -
        ((⟨defaultRanges ℚ⟩ : HandCalibration ℚ).finger_ranges .pinky).1| ∧
    (⟨defaultRanges ℚ⟩ : HandCalibration ℚ).normalize "pinky" 1 =
      ⌊max 0 (min 1 (((1:ℚ) - 1/2) / (11/5 - 1/2))) * 1000⌋ :=
  ⟨by norm_num [defaultRanges, le_abs],
   c5_clamp_and_truncate (⟨defaultRanges ℚ⟩ : HandCalibration ℚ) .pinky 1
      (by norm_num [defaultRanges, le_abs])⟩

/-- C6: degenerate ranges (`|max - min| < 0.001`) normalize to exactly
`500` for every raw value; an unknown channel name normalizes to `500`;
and `update_min` / `update_max` on an unknown name leave the store
unchanged. -/
theorem c6_degenerate_unknown {K : Type} [LinearOrderedField K] [FloorRing K] :
    (∀ (c : HandCalibration K) (ch : Channel) (r : K),
        |(c.finger_ranges ch).2 - (c.finger_ranges ch).1| < 1/1000 →
        c.normalize (nameOf ch) r = 500) ∧
    (∀ (c : HandCalibration K) (name : String) (r : K),
        channelOfName name = none → c.normalize name r = 500) ∧
    (∀ (c : HandCalibration K) (name : String) (v : K),
        channelOfName name = none →
        c.update_min name v = c ∧ c.update_max name v = c) := by
  refine ⟨fun c ch r h => ?_, fun c name r h => ?_, fun c name v h => ?_⟩
  · rw [HandCalibration.normalize, channelOfName_nameOf ch]
    simp only [if_pos h]
  · rw [HandCalibration.normalize, h]
  · constructor
    · rw [HandCalibration.update_min, h]
    · rw [HandCalibration.update_max, h]

/-- A store whose pinky range has been collapsed to `[1, 1]` by two
capture events, for the C6 witness. -/
def degenStore : HandCalibration ℚ :=
  ((⟨defaultRanges ℚ⟩ : HandCalibration ℚ).update_min "pinky" 1).update_max
    "pinky" 1

/-- Witness for C6 over `ℚ`: a collapsed pinky range yields `500`, the
unknown name "thumb" yields `500` and update on it is the identity. -/
theorem c6_degenerate_unknown_witness :
    (|(degenStore.finger_ranges .pinky).2 - (degenStore.finger_ranges .pinky).1| <
        (1/1000 : ℚ) ∧
      degenStore.normalize "pinky" 42 = 500) ∧
    (channelOfName "thumb" = none ∧
      (⟨defaultRanges ℚ⟩ : HandCalibration ℚ).normalize "thumb" 7 = 500) ∧
    (⟨defaultRanges ℚ⟩ : HandCalibration ℚ).update_min "thumb" 9 =
      (⟨defaultRanges ℚ⟩ : HandCalibration ℚ) := by
  have hdeg : |(degenStore.finger_ranges .pinky).2 -
      (degenStore.finger_ranges .pinky).1| < (1/1000 : ℚ) := by
    have : degenStore.finger_ranges .pinky = (1, 1) := rfl
    rw [this]
    norm_num
  have hunk : channelOfName "thumb" = none := rfl
  exact ⟨⟨hdeg, (c6_degenerate_unknown (K := ℚ)).1 degenStore .pinky 42 hdeg⟩,
    ⟨hunk, (c6_degenerate_unknown (K := ℚ)).2.1 ⟨defaultRanges ℚ⟩ "thumb" 7 hunk⟩,
    ((c6_degenerate_unknown (K := ℚ)).2.2 ⟨defaultRanges ℚ⟩ "thumb" 9 hunk).1⟩

/-- C2 counterexample: an initialized smoother with `alpha = 0.5` and
state `0`, fed the constant input `3`, updates its state to `1.5` (exact
also in binary floating point); the code returns `int(1.5) = 1` while the
claimed `round(1.5)` is `2`. -/
theorem c2_counterexample :
    ((⟨1/2, fun _ => 0, true⟩ : AngleSmoother ℚ).smooth (fun _ => 3)).1 0 ≠
      round ((((⟨1/2, fun _ => 0, true⟩ : AngleSmoother ℚ).smooth
        (fun _ => 3)).2).smoothed 0) := by
  rw [AngleSmoother.smooth]
  norm_num [truncK]
  rw [round_eq]
  norm_num

/-- C2 (amended): on every call after the first, each channel's state is
updated to `alpha * input + (1 - alpha) * state` and kept unrounded; the
returned value per channel is `int(state)` — Python truncation toward
zero (`truncK`), not round-to-nearest. The initialized flag and alpha are
unchanged. -/
theorem c2_smooth_update {K : Type} [LinearOrderedField K] [FloorRing K]
    (s : AngleSmoother K) (v : Fin 6 → K) (h : s.inited = true) (i : Fin 6) :
    ((s.smooth v).2).smoothed i = s.alpha * v i + (1 - s.alpha) * s.smoothed i ∧
    (s.smooth v).1 i = truncK (((s.smooth v).2).smoothed i) ∧
    ((s.smooth v).2).inited = true ∧ ((s.smooth v).2).alpha = s.alpha := by
  rw [AngleSmoother.smooth, if_neg (by rw [h]; exact fun hc => Bool.noConfusion hc)]
  exact ⟨rfl, rfl, h, rfl⟩

/-- Witness for the amended C2 over `ℚ` with `alpha = 0.35` and constant
state `500`, as main constructs the smoother. -/
theorem c2_smooth_update_witness :
    (⟨35/100, fun _ => 500, true⟩ : AngleSmoother ℚ).inited = true ∧
    (((⟨35/100, fun _ => 500, true⟩ : AngleSmoother ℚ).smooth
        (fun _ => 1000)).2).smoothed 0 =
      35/100 * 1000 + (1 - 35/100) * 500 :=
  ⟨rfl, (c2_smooth_update (⟨35/100, fun _ => 500, true⟩ : AngleSmoother ℚ)
      (fun _ => 1000) rfl 0).1⟩

/-- C4: for every six-element integer input vector, the first `smooth`
call after construction (initialized flag still false) or directly after
a `reset` returns the input unchanged element-wise and marks the smoother
initialized. -/
theorem c4_first_smooth_identity {K : Type} [LinearOrderedField K]
    [FloorRing K] (s : AngleSmoother K) (v : Fin 6 → ℤ)
    (h : s.inited = false) :
    ((s.smooth (fun i => ((v i : ℤ) : K))).1 = v ∧
      ((s.smooth (fun i => ((v i : ℤ) : K))).2).inited = true) ∧
    (((s.reset).smooth (fun i => ((v i : ℤ) : K))).1 = v ∧
      (((s.reset).smooth (fun i => ((v i : ℤ) : K))).2).inited = true) := by
  have key : ∀ s2 : AngleSmoother K, s2.inited = false →
      ((s2.smooth (fun i => ((v i : ℤ) : K))).1 = v ∧
        ((s2.smooth (fun i => ((v i : ℤ) : K))).2).inited = true) := by
    intro s2 h2
    rw [AngleSmoother.smooth, if_pos h2]
    exact ⟨funext fun i => truncK_intCast (v i), rfl⟩
  exact ⟨key s h, key s.reset rfl⟩

/-- Witness for C4 over `ℚ` at the smoother main constructs and the
integer vector `(7, 7, 7, 7, 7, 7)`. -/
theorem c4_first_smooth_identity_witness :
    (mkSmoother (35/100 : ℚ)).inited = false ∧
    ((mkSmoother (35/100 : ℚ)).smooth (fun i => (((fun _ => 7) i : ℤ) : ℚ))).1 =
      (fun _ => 7) :=
  ⟨rfl, ((c4_first_smooth_identity (mkSmoother (35/100 : ℚ))
      (fun _ => 7) rfl).1).1⟩

/-- C3: a frame with no detected skeleton emits exactly the sentinel
packet `{detected: false, angles: [1000,1000,1000,1000,1000,500],
landmarks: []}` and leaves the whole loop state — in particular the
smoother's running values and initialized flag — untouched, for any
number of consecutive such frames. -/
theorem c3_no_hand_frames (st : LoopState) (n : ℕ) :
    runTrace st (List.replicate n (UIEvent.frame none)) =
      (List.replicate n noHandPacket, st) := by
  induction n with
  | zero => rfl
  | succ k ih =>
      simp [List.replicate, runTrace, step, processFrame, ih]

theorem truncK_mem {K : Type} [LinearOrderedField K] [FloorRing K]
    {q : K} (h0 : 0 ≤ q) (h1 : q ≤ 1000) :
    0 ≤ truncK q ∧ truncK q ≤ 1000 := by
  rw [truncK_eq_floor h0]
  exact ⟨Int.le_floor.mpr (by exact_mod_cast h0),
    by exact_mod_cast le_trans (Int.floor_le q) h1⟩

/-- Shared bound: one `smooth` call keeps the running values and the
returned integers inside `[0, 1000]` whenever `alpha` lies in `[0, 1]`,
the prior state (when initialized) lies in `[0, 1000]` and the inputs lie
in `[0, 1000]`. -/
theorem smooth_bounds {K : Type} [LinearOrderedField K] [FloorRing K]
    (s : AngleSmoother K) (v : Fin 6 → K)
    (halpha : 0 ≤ s.alpha ∧ s.alpha ≤ 1)
    (hst : s.inited = true → ∀ i, 0 ≤ s.smoothed i ∧ s.smoothed i ≤ 1000)
    (hv : ∀ i, 0 ≤ v i ∧ v i ≤ 1000) :
    (∀ i, 0 ≤ ((s.smooth v).2).smoothed i ∧
      ((s.smooth v).2).smoothed i ≤ 1000) ∧
    ((s.smooth v).2).alpha = s.alpha ∧
    (∀ i, 0 ≤ (s.smooth v).1 i ∧ (s.smooth v).1 i ≤ 1000) := by
  rw [AngleSmoother.smooth]
  by_cases h : s.inited = false
  · rw [if_pos h]
    exact ⟨fun i => hv i, rfl, fun i => truncK_mem (hv i).1 (hv i).2⟩
  · rw [if_neg h]
    have hi : s.inited = true := by revert h; cases s.inited <;> simp
    have hb : ∀ i, 0 ≤ s.alpha * v i + (1 - s.alpha) * s.smoothed i ∧
        s.alpha * v i + (1 - s.alpha) * s.smoothed i ≤ 1000 := by
      intro i
      obtain ⟨h1, h2⟩ := hv i
      obtain ⟨h3, h4⟩ := hst hi i
      constructor <;> nlinarith [halpha.1, halpha.2]
    exact ⟨hb, rfl, fun i => truncK_mem (hb i).1 (hb i).2⟩

/-- The smoother invariant of the loop: `alpha` is the `0.35` of `main`,
and once initialized the running values stay in `[0, 1000]`. -/
def smootherOK (s : AngleSmoother ℝ) : Prop :=
  s.alpha = 35/100 ∧
  (s.inited = true → ∀ i, 0 ≤ s.smoothed i ∧ s.smoothed i ≤ 1000)

theorem smootherOK_reset {s : AngleSmoother ℝ} (hs : smootherOK s) :
    smootherOK s.reset :=
  ⟨hs.1, fun hinit => by simp [AngleSmoother.reset] at hinit⟩

theorem noHandPacket_angles (i : Fin 6) :
    0 ≤ noHandPacket.angles i ∧ noHandPacket.angles i ≤ 1000 := by
  revert i; decide

/-- One loop event preserves the smoother invariant and every packet it
emits has all six angles in `[0, 1000]`. -/
theorem step_bounds (st : LoopState) (e : UIEvent)
    (hs : smootherOK st.smoother) :
    smootherOK ((step st e).2).smoother ∧
    ∀ p ∈ ((step st e).1).toList, ∀ i, 0 ≤ p.angles i ∧ p.angles i ≤ 1000 := by
  cases e with
  | frame skel =>
      cases skel with
      | none =>
          refine ⟨hs, fun p hp i => ?_⟩
          simp only [step, processFrame, Option.toList, List.mem_singleton] at hp
          subst hp
          exact noHandPacket_angles i
      | some lm =>
          have hv : ∀ i : Fin 6,
              (0:ℝ) ≤ ((st.calibration.normalize (nameOfIdx i)
                  (rawValues lm i) : ℤ) : ℝ) ∧
              ((st.calibration.normalize (nameOfIdx i)
                  (rawValues lm i) : ℤ) : ℝ) ≤ 1000 := by
            intro i
            obtain ⟨h1, h2⟩ :=
              normalize_mem st.calibration (nameOfIdx i) (rawValues lm i)
            exact ⟨by exact_mod_cast h1, by exact_mod_cast h2⟩
          have hsm := smooth_bounds st.smoother _
            ⟨by rw [hs.1]; norm_num, by rw [hs.1]; norm_num⟩ hs.2 hv
          constructor
          · exact ⟨by rw [show ((step st (.frame (some lm))).2).smoother =
                (st.smoother.smooth (fun i =>
                  ((st.calibration.normalize (nameOfIdx i)
                    (rawValues lm i) : ℤ) : ℝ))).2 from rfl, hsm.2.1, hs.1],
              fun _ => hsm.1⟩
          · intro p hp i
            simp only [step, processFrame, Option.toList,
              List.mem_singleton] at hp
            subst hp
            exact hsm.2.2 i
  | calibOpen =>
      cases hcr : st.current_raw_values with
      | none => exact ⟨by simp [step, hcr, hs], by simp [step]⟩
      | some raw => exact ⟨by simpa [step, hcr] using smootherOK_reset hs,
          by simp [step]⟩
  | calibClosed =>
      cases hcr : st.current_raw_values with
      | none => exact ⟨by simp [step, hcr, hs], by simp [step]⟩
      | some raw => exact ⟨by simpa [step, hcr] using smootherOK_reset hs,
          by simp [step]⟩
  | saveCal => exact ⟨hs, by simp [step]⟩
  | resetCal => exact ⟨smootherOK_reset hs, by simp [step]⟩
  | toggleMirror => exact ⟨hs, by simp [step]⟩

theorem trace_bounds (st : LoopState) (evs : List UIEvent)
    (hs : smootherOK st.smoother) :
    ∀ p ∈ (runTrace st evs).1, ∀ i, 0 ≤ p.angles i ∧ p.angles i ≤ 1000 := by
  induction evs generalizing st with
  | nil => simp [runTrace]
  | cons e rest ih =>
      intro p hp
      simp only [runTrace, List.mem_append] at hp
      rcases hp with h | h
      · exact (step_bounds st e hs).2 p h
      · exact ih _ (step_bounds st e hs).1 p h

/-- C8: every packet the frame loop emits — starting from the state main
builds (any loaded calibration, smoother with `alpha = 0.35`), across any
sequence of frames and calibration events — carries exactly six integer
angles (the `Fin 6 → ℤ` field), each in `[0, 1000]`. -/
theorem c8_packet_angles_range (cal : HandCalibration ℝ)
    (evs : List UIEvent) (p : Packet)
    (hp : p ∈ (runTrace (initState cal) evs).1) (i : Fin 6) :
    0 ≤ p.angles i ∧ p.angles i ≤ 1000 :=
  trace_bounds (initState cal) evs
    ⟨rfl, fun hinit => by simp [initState, mkSmoother] at hinit⟩ p hp i

/-- Witness for C8: the packet of a single no-hand frame from the default
loop state is emitted and its first angle is in range. -/
theorem c8_packet_angles_range_witness :
    noHandPacket ∈
      (runTrace (initState ⟨defaultRanges ℝ⟩) [UIEvent.frame none]).1 ∧
    (0 ≤ noHandPacket.angles 0 ∧ noHandPacket.angles 0 ≤ 1000) := by
  have hp : noHandPacket ∈
      (runTrace (initState ⟨defaultRanges ℝ⟩) [UIEvent.frame none]).1 := by
    simp [runTrace, step, processFrame]
  exact ⟨hp, c8_packet_angles_range ⟨defaultRanges ℝ⟩ [UIEvent.frame none]
    noHandPacket hp 0⟩

/-- The smoother state after `n` repeated `smooth` calls on the same
input vector. -/
def smoothIter {K : Type} [LinearOrderedField K] [FloorRing K]
    (s : AngleSmoother K) (v : Fin 6 → K) : ℕ → AngleSmoother K
  | 0 => s
  | n+1 => ((smoothIter s v n).smooth v).2

theorem smooth_keeps_inited {K : Type} [LinearOrderedField K] [FloorRing K]
    (s : AngleSmoother K) (v : Fin 6 → K) :
    ((s.smooth v).2).inited = true := by
  rw [AngleSmoother.smooth]
  by_cases h : s.inited = false
  · rw [if_pos h]
  · rw [if_neg h]
    revert h
    cases s.inited <;> simp

theorem smooth_keeps_alpha {K : Type} [LinearOrderedField K] [FloorRing K]
    (s : AngleSmoother K) (v : Fin 6 → K) :
    ((s.smooth v).2).alpha = s.alpha := by
  rw [AngleSmoother.smooth]
  split <;> rfl

theorem smoothIter_inited {K : Type} [LinearOrderedField K] [FloorRing K]
    (s : AngleSmoother K) (v : Fin 6 → K) (h : s.inited = true) (n : ℕ) :
    (smoothIter s v n).inited = true := by
  cases n with
  | zero => exact h
  | succ k => exact smooth_keeps_inited _ v

theorem smoothIter_alpha {K : Type} [LinearOrderedField K] [FloorRing K]
    (s : AngleSmoother K) (v : Fin 6 → K) (n : ℕ) :
    (smoothIter s v n).alpha = s.alpha := by
  induction n with
  | zero => rfl
  | succ k ih => rw [smoothIter, smooth_keeps_alpha, ih]

theorem smoothIter_rec {K : Type} [LinearOrderedField K] [FloorRing K]
    (s : AngleSmoother K) (v : Fin 6 → K) (h : s.inited = true) (n : ℕ)
    (i : Fin 6) :
    (smoothIter s v (n+1)).smoothed i =
      s.alpha * v i + (1 - s.alpha) * (smoothIter s v n).smoothed i := by
  have hin : (smoothIter s v n).inited = true := smoothIter_inited s v h n
  rw [smoothIter, AngleSmoother.smooth,
    if_neg (by rw [hin]; exact fun hc => Bool.noConfusion hc),
    smoothIter_alpha]

/-- Closed-form error after `n` blends toward a constant input. -/
theorem smoothIter_closed_form {K : Type} [LinearOrderedField K]
    [FloorRing K] (s : AngleSmoother K) (v : Fin 6 → K)
    (h : s.inited = true) (i : Fin 6) (n : ℕ) :
    (smoothIter s v n).smoothed i - v i =
      (1 - s.alpha)^n * (s.smoothed i - v i) := by
  induction n with
  | zero => rw [smoothIter]; ring
  | succ k ih =>
      rw [smoothIter_rec s v h k i, pow_succ]
      linear_combination (1 - s.alpha) * ih

/-- C9: from any initialized smoother state with blend factor in `(0, 1]`
and a constant repeated input vector, each channel's internal state
sequence is monotone toward the input (non-decreasing when it starts
below, non-increasing when above), never leaves
`[min(start, input), max(start, input)]`, and converges to the input. -/
theorem c9_constant_input_convergence {K : Type} [LinearOrderedField K]
    [FloorRing K] [Archimedean K] (s : AngleSmoother K) (v : Fin 6 → K)
    (i : Fin 6) (hinit : s.inited = true) (h0 : 0 < s.alpha)
    (h1 : s.alpha ≤ 1) :
    (s.smoothed i ≤ v i →
      Monotone (fun n => (smoothIter s v n).smoothed i) ∧
      ∀ n, (smoothIter s v n).smoothed i ≤ v i) ∧
    (v i ≤ s.smoothed i →
      Antitone (fun n => (smoothIter s v n).smoothed i) ∧
      ∀ n, v i ≤ (smoothIter s v n).smoothed i) ∧
    (∀ n, min (s.smoothed i) (v i) ≤ (smoothIter s v n).smoothed i ∧
      (smoothIter s v n).smoothed i ≤ max (s.smoothed i) (v i)) ∧
    (∀ ε : K, 0 < ε → ∃ N, ∀ n, N ≤ n →
      |(smoothIter s v n).smoothed i - v i| < ε) := by
  set β := 1 - s.alpha with hβ
  have hβ0 : 0 ≤ β := by rw [hβ]; linarith
  have hβ1 : β < 1 := by rw [hβ]; linarith
  have hcf : ∀ n, (smoothIter s v n).smoothed i - v i =
      β^n * (s.smoothed i - v i) := smoothIter_closed_form s v hinit i
  have hpow : ∀ n : ℕ, 0 ≤ β^n ∧ β^n ≤ 1 :=
    fun n => ⟨pow_nonneg hβ0 n, pow_le_one₀ hβ0 hβ1.le⟩
  have hle : ∀ n, s.smoothed i ≤ v i → (smoothIter s v n).smoothed i ≤ v i := by
    intro n hsv
    nlinarith [hcf n, (hpow n).1]
  have hge : ∀ n, v i ≤ s.smoothed i → v i ≤ (smoothIter s v n).smoothed i := by
    intro n hsv
    nlinarith [hcf n, (hpow n).1]
  refine ⟨fun hsv => ⟨monotone_nat_of_le_succ fun n => ?_, fun n => hle n hsv⟩,
    fun hsv => ⟨antitone_nat_of_succ_le fun n => ?_, fun n => hge n hsv⟩,
    fun n => ?_, fun ε hε => ?_⟩
  · have := hle n hsv
    have hrec := smoothIter_rec s v hinit n i
    nlinarith
  · have := hge n hsv
    have hrec := smoothIter_rec s v hinit n i
    nlinarith
  · rcases le_total (s.smoothed i) (v i) with hsv | hsv
    · rw [min_eq_left hsv, max_eq_right hsv]
      refine ⟨?_, hle n hsv⟩
      nlinarith [hcf n, (hpow n).1, (hpow n).2]
    · rw [min_eq_right hsv, max_eq_left hsv]
      refine ⟨hge n hsv, ?_⟩
      nlinarith [hcf n, (hpow n).1, (hpow n).2]
  · rcases eq_or_ne (s.smoothed i) (v i) with heq | hne
    · refine ⟨0, fun n _ => ?_⟩
      rw [hcf n, heq, sub_self, mul_zero, abs_zero]
      exact hε
    · have hd : 0 < |s.smoothed i - v i| :=
        abs_pos.mpr (sub_ne_zero.mpr hne)
      obtain ⟨N, hN⟩ := exists_pow_lt_of_lt_one
        (div_pos hε hd) hβ1
      refine ⟨N, fun n hn => ?_⟩
      have habs : |(smoothIter s v n).smoothed i - v i| =
          β^n * |s.smoothed i - v i| := by
        rw [hcf n, abs_mul, abs_of_nonneg (hpow n).1]
      rw [habs]
      calc β^n * |s.smoothed i - v i| ≤
            β^N * |s.smoothed i - v i| := by
              have := pow_le_pow_of_le_one hβ0 hβ1.le hn
              nlinarith
        _ < ε := (lt_div_iff₀ hd).mp hN

/-- Witness for C9 over `ℚ`: initialized state `0`, `alpha = 1/2`,
constant input `1000`; the interval bound holds at step 2. -/
theorem c9_constant_input_convergence_witness :
    ((⟨1/2, fun _ => 0, true⟩ : AngleSmoother ℚ).inited = true ∧
      (0:ℚ) < 1/2 ∧ (1/2:ℚ) ≤ 1) ∧
    (min ((⟨1/2, fun _ => 0, true⟩ : AngleSmoother ℚ).smoothed 0) 1000 ≤
        (smoothIter (⟨1/2, fun _ => 0, true⟩ : AngleSmoother ℚ)
          (fun _ => 1000) 2).smoothed 0 ∧
      (smoothIter (⟨1/2, fun _ => 0, true⟩ : AngleSmoother ℚ)
          (fun _ => 1000) 2).smoothed 0 ≤
        max ((⟨1/2, fun _ => 0, true⟩ : AngleSmoother ℚ).smoothed 0) 1000) :=
  ⟨⟨rfl, by norm_num, by norm_num⟩,
   (c9_constant_input_convergence (⟨1/2, fun _ => 0, true⟩ : AngleSmoother ℚ)
      (fun _ => 1000) 0 rfl (by norm_num) (by norm_num)).2.2.1 2⟩

/-- C7: feature extraction is total on degenerate geometry. The finger
extension ratio is exactly `1` when `dist(MCP, wrist) < 0.001` and
otherwise `dist(tip, wrist) / dist(MCP, wrist)`; the thumb bend value is
exactly `1` when `dist(middle MCP, wrist) < 0.001` and otherwise the
distance from the thumb tip to the palm center divided by the hand size;
the thumb rotation value is exactly `0.5` when the 2D distance between
index MCP and pinky MCP is `< 0.001` and otherwise the claimed 2D
distance ratio. -/
theorem c7_degenerate_fallbacks (lm : Landmarks)
    (mcp pip dip tip wrist : Fin 21) :
    (dist3 (lm mcp) (lm wrist) < 1/1000 →
      calculate_finger_raw_value lm mcp pip dip tip wrist = 1) ∧
    (¬ dist3 (lm mcp) (lm wrist) < 1/1000 →
      calculate_finger_raw_value lm mcp pip dip tip wrist =
        dist3 (lm tip) (lm wrist) / dist3 (lm mcp) (lm wrist)) ∧
    (dist3 (lm 9) (lm 0) < 1/1000 → calculate_thumb_bend_raw lm = 1) ∧
    (¬ dist3 (lm 9) (lm 0) < 1/1000 →
      calculate_thumb_bend_raw lm =
        dist3 (lm 4) (mean3 (lm 5) (lm 9) (lm 0)) / dist3 (lm 9) (lm 0)) ∧
    (dist2 (lm 5) (lm 17) < 1/1000 →
      calculate_thumb_rotation_raw lm = 1/2) ∧
    (¬ dist2 (lm 5) (lm 17) < 1/1000 →
      calculate_thumb_rotation_raw lm =
        dist2 (lm 4) (lm 5) / dist2 (lm 5) (lm 17)) := by
  refine ⟨fun h => ?_, fun h => ?_, fun h => ?_, fun h => ?_,
    fun h => ?_, fun h => ?_⟩
  · rw [calculate_finger_raw_value]
    exact if_pos h
  · rw [calculate_finger_raw_value]
    exact if_neg h
  · rw [calculate_thumb_bend_raw]
    exact if_pos h
  · rw [calculate_thumb_bend_raw]
    exact if_neg h
  · rw [calculate_thumb_rotation_raw]
    exact if_pos h
  · rw [calculate_thumb_rotation_raw]
    exact if_neg h

/-- The all-zero skeleton: every distance is zero, so every denominator
guard fires. -/
def zeroHand : Landmarks := fun _ => ⟨0, 0, 0⟩

theorem dist3_self_zeroHand (a b : Fin 21) :
    dist3 (zeroHand a) (zeroHand b) = 0 := by
  simp [dist3, zeroHand, Real.sqrt_zero]

theorem dist2_self_zeroHand (a b : Fin 21) :
    dist2 (zeroHand a) (zeroHand b) = 0 := by
  simp [dist2, zeroHand, Real.sqrt_zero]

/-- Witness for C7 on the all-zero skeleton: all three guards fire and the
three sentinel values come out. -/
theorem c7_degenerate_fallbacks_witness :
    dist3 (zeroHand 17) (zeroHand 0) < 1/1000 ∧
    calculate_finger_raw_value zeroHand 17 18 19 20 0 = 1 ∧
    calculate_thumb_bend_raw zeroHand = 1 ∧
    calculate_thumb_rotation_raw zeroHand = 1/2 := by
  have h3 : ∀ a b : Fin 21, dist3 (zeroHand a) (zeroHand b) < 1/1000 := by
    intro a b
    rw [dist3_self_zeroHand]
    norm_num
  have h2 : dist2 (zeroHand 5) (zeroHand 17) < 1/1000 := by
    rw [dist2_self_zeroHand]
    norm_num
  exact ⟨h3 17 0,
    (c7_degenerate_fallbacks zeroHand 17 18 19 20 0).1 (h3 17 0),
    (c7_degenerate_fallbacks zeroHand 17 18 19 20 0).2.2.1 (h3 9 0),
    (c7_degenerate_fallbacks zeroHand 17 18 19 20 0).2.2.2.2.1 h2⟩

/-- C10: `calculate_finger_raw_value` reads only the wrist, MCP and TIP
keypoints — two skeletons agreeing on those three points give identical
results for any PIP/DIP index arguments and any PIP/DIP positions. -/
theorem c10_pip_dip_independent (lm1 lm2 : Landmarks)
    (mcp pip1 dip1 pip2 dip2 tip wrist : Fin 21)
    (hw : lm1 wrist = lm2 wrist) (hm : lm1 mcp = lm2 mcp)
    (ht : lm1 tip = lm2 tip) :
    calculate_finger_raw_value lm1 mcp pip1 dip1 tip wrist =
      calculate_finger_raw_value lm2 mcp pip2 dip2 tip wrist := by
  rw [calculate_finger_raw_value, calculate_finger_raw_value,
    get_landmark_array, get_landmark_array, get_landmark_array,
    get_landmark_array, get_landmark_array, get_landmark_array,
    hw, hm, ht]

/-- A skeleton equal to `zeroHand` on indices up to 10 but displaced
beyond, for the C10 witness. -/
noncomputable def movedHand : Landmarks :=
  fun i => if i.val ≤ 10 then ⟨0, 0, 0⟩ else ⟨1, 2, 3⟩

/-- Witness for C10: the two skeletons agree on wrist 0, MCP 5 and TIP 8,
differ at the PIP/DIP indices used (6, 7 vs 18, 19), and the finger value
is the same. -/
theorem c10_pip_dip_independent_witness :
    (zeroHand 0 = movedHand 0 ∧ zeroHand 5 = movedHand 5 ∧
      zeroHand 8 = movedHand 8) ∧
    calculate_finger_raw_value zeroHand 5 6 7 8 0 =
      calculate_finger_raw_value movedHand 5 18 19 8 0 := by
  have hw : zeroHand 0 = movedHand 0 := rfl
  have hm : zeroHand 5 = movedHand 5 := rfl
  have ht : zeroHand 8 = movedHand 8 := rfl
  exact ⟨⟨hw, hm, ht⟩,
    c10_pip_dip_independent zeroHand movedHand 5 6 7 18 19 8 0 hw hm ht⟩

end HandTracker
